import Mathlib

/-!
# DECTERUM feed engine — verification of the reputation-weighted voting core

Shallow embedding of the DECTERUM feed engine: the reputation-weighted
voting ledger, reputation store, badge registry, sub-thread tree and feed
ranker described by the repository's specification, plus the client-side
vote-simulation fallback embedded from `src/static/js/modules/feed.js`.

The server-side core (the Python feed service behind `/api/feed/...`) is
not part of the repository snapshot: only its API documentation
(`src/unnamed/part_000`) and its JavaScript callers are present, so the
server components are modelled from the specification's own algorithm
descriptions, as flagged on each definition. The client-side
`simulateVote` fallback is embedded directly from `feed.js`.

All float-valued quantities of the source (vote weights, weighted tallies,
reputation scores) are modelled as rationals `ℚ`; identifiers and
timestamps are naturals.
-/

namespace Decterum

abbrev UserId := Nat
abbrev PostId := Nat
abbrev ThreadId := Nat

/-- Modelled from the spec (§7): the error taxonomy of the feed core. -/
inductive Err
  | NotFound
  | Conflict
  | RateLimited
  | ValidationError
deriving DecidableEq

/-- Modelled from the spec (§3, Vote): the direction of a live vote row.
Retraction (`direction = none`) is represented by `Option Direction` at the
`CastVote` entry point; live rows store only `up` or `down`. -/
inductive Direction
  | up
  | down
deriving DecidableEq

/-- Modelled from the spec (§3, Post): the weighted tally fields of a post.
Only the vote-tally state relevant to the VoteLedger is carried;
`net_score` is the derived difference of the two buckets. -/
structure Post where
  upvote_weight_sum : ℚ
  downvote_weight_sum : ℚ
deriving DecidableEq

/-- Modelled from the spec (§3): `net_score = upvote_weight_sum − downvote_weight_sum`. -/
def Post.net_score (p : Post) : ℚ :=
  p.upvote_weight_sum - p.downvote_weight_sum

/-- Modelled from the spec (§3, Vote): a live vote row. -/
structure Vote where
  voter_id : UserId
  target_post_id : PostId
  direction : Direction
  weight_snapshot : ℚ
deriving DecidableEq

/-- Modelled from the spec (§4.3): the VoteLedger state — posts keyed by id,
plus the list of live vote rows. -/
structure Ledger where
  posts : List (PostId × Post)
  votes : List Vote
deriving DecidableEq

/-- Look up a post by id in the ledger's post table. -/
def lookupPost (posts : List (PostId × Post)) (pid : PostId) : Option Post :=
  (posts.find? (fun pp => pp.1 == pid)).map Prod.snd

/-- Modelled from the spec (§4.3): look up the voter's existing live Vote for
the target, of which there is at most one. -/
def findVote (s : Ledger) (voter : UserId) (pid : PostId) : Option Vote :=
  s.votes.find? (fun v => v.voter_id == voter && v.target_post_id == pid)

/-- Sign of a vote direction: +1 for up, -1 for down. -/
def Direction.sign : Direction → ℚ
  | .up => 1
  | .down => -1

/-- Add weight `w` to the bucket selected by direction `d`. -/
def addToBucket (p : Post) (d : Direction) (w : ℚ) : Post :=
  match d with
  | .up => { p with upvote_weight_sum := p.upvote_weight_sum + w }
  | .down => { p with downvote_weight_sum := p.downvote_weight_sum + w }

/-- Subtract weight `w` from the bucket selected by direction `d`. -/
def subFromBucket (p : Post) (d : Direction) (w : ℚ) : Post :=
  addToBucket p d (-w)

/-- Apply `f` to the post stored under `pid`, leaving every other entry as is. -/
def updatePost (posts : List (PostId × Post)) (pid : PostId) (f : Post → Post) :
    List (PostId × Post) :=
  posts.map (fun pp => if pp.1 == pid then (pp.1, f pp.2) else pp)

/-- Delete the live vote row keyed by `(voter, pid)`. -/
def removeVote (votes : List Vote) (voter : UserId) (pid : PostId) : List Vote :=
  votes.filter (fun v => !(v.voter_id == voter && v.target_post_id == pid))

/-- Modelled from the spec (§4.3): `CastVote(voter_id, target_post_id, direction)`.
The voter's current weight, obtained from the ReputationStore by the caller,
is passed in as `weight`. `dir = none` is vote retraction. The four cases of
the documented algorithm: no prior vote adds a fresh row and bucket weight;
a prior vote with a different direction moves the old `weight_snapshot` out
of its bucket and the current weight into the new one, replacing the row;
a prior vote with the same direction is a no-op; retraction subtracts the
stored snapshot and deletes the row. Rejects with `NotFound` when the target
post does not exist. Updating a row is realised as delete-then-insert, which
has the same key-set semantics as in-place mutation. -/
def castVote (s : Ledger) (voter : UserId) (pid : PostId) (dir : Option Direction)
    (weight : ℚ) : Except Err (Ledger × Option Vote) :=
  match lookupPost s.posts pid with
  | none => .error .NotFound
  | some _ =>
    match findVote s voter pid, dir with
    | none, none => .ok (s, none)
    | none, some d =>
      let v : Vote := ⟨voter, pid, d, weight⟩
      .ok ({ posts := updatePost s.posts pid (fun p => addToBucket p d weight),
             votes := v :: s.votes }, some v)
    | some old, some d =>
      if old.direction = d then
        .ok (s, some old)
      else
        let v : Vote := ⟨voter, pid, d, weight⟩
        .ok ({ posts := updatePost s.posts pid
                 (fun p => addToBucket (subFromBucket p old.direction old.weight_snapshot) d weight),
               votes := v :: removeVote s.votes voter pid }, some v)
    | some old, none =>
      .ok ({ posts := updatePost s.posts pid
               (fun p => subFromBucket p old.direction old.weight_snapshot),
             votes := removeVote s.votes voter pid }, none)

/-- The signed contribution of one live vote row to its target's tally. -/
def signedContribution (v : Vote) : ℚ :=
  v.direction.sign * v.weight_snapshot

/-- The sum of the signed `weight_snapshot` values of all live vote rows
targeting `pid`, each row counted once. -/
def tallySum (votes : List Vote) (pid : PostId) : ℚ :=
  ((votes.filter (fun v => v.target_post_id == pid)).map signedContribution).sum

/-- At most one live vote row per `(voter_id, target_post_id)` key. -/
def voteKeysUnique (votes : List Vote) : Prop :=
  votes.Pairwise (fun v w => ¬(v.voter_id = w.voter_id ∧ v.target_post_id = w.target_post_id))

/-- The VoteLedger consistency invariant: post keys are distinct, vote keys
are distinct (each live row contributes exactly once), every live row
targets an existing post, and every post's `net_score` equals the signed sum
of the live rows targeting it. -/
def ledgerInv (s : Ledger) : Prop :=
  (s.posts.map Prod.fst).Nodup ∧
  voteKeysUnique s.votes ∧
  (∀ v ∈ s.votes, v.target_post_id ∈ s.posts.map Prod.fst) ∧
  (∀ pp ∈ s.posts, (Prod.snd pp).net_score = tallySum s.votes pp.1)

/-- Modelled from the spec (§4.5): create a fresh post with empty tallies;
an id collision leaves the store unchanged. -/
def createPost (s : Ledger) (pid : PostId) : Ledger :=
  if pid ∈ s.posts.map Prod.fst then s
  else { s with posts := (pid, ⟨0, 0⟩) :: s.posts }

/-- A request against the voting core: post creation or a vote action. -/
inductive FeedOp
  | newPost (pid : PostId)
  | vote (voter : UserId) (pid : PostId) (dir : Option Direction) (weight : ℚ)

/-- Apply one operation; a rejected vote leaves the ledger unchanged. -/
def applyOp (s : Ledger) : FeedOp → Ledger
  | .newPost pid => createPost s pid
  | .vote voter pid dir w =>
    match castVote s voter pid dir w with
    | .ok (s', _) => s'
    | .error _ => s

/-- The empty initial ledger. -/
def emptyLedger : Ledger := ⟨[], []⟩

/-- Run a sequence of operations from the empty ledger: exactly the
reachable states of the voting core. -/
def runOps (ops : List FeedOp) : Ledger :=
  ops.foldl applyOp emptyLedger

/-! ## ReputationStore (§4.1) -/

/-- Modelled from the spec (§3, user reputation record): the mutable
accumulators of a user's reputation. The derived `vote_weight` and `level`
are computed on read by `GetWeight`. -/
structure UserReputation where
  engagement_score : ℚ
  accuracy_score : ℚ
  badge_score : ℚ
deriving DecidableEq

/-- Modelled from the spec (§3): defaults at lazy creation —
engagement 0, neutral accuracy prior 0.5, badge 0. -/
def defaultReputation : UserReputation := ⟨0, 1/2, 0⟩

/-- Modelled from the spec (§4.1): engagement saturation constant, a
configuration value (the spec fixes only its role, not its value). -/
def ENGAGEMENT_SATURATION : ℚ := 100

/-- Modelled from the spec (§4.1): badge saturation constant, a
configuration value. -/
def BADGE_SATURATION : ℚ := 10

/-- Modelled from the spec (§4.1): the smoothing factor of the
exponentially-weighted moving average for accuracy observations, a
configuration value in `(0,1)`. -/
def ACCURACY_EWMA_ALPHA : ℚ := 1/5

/-- Modelled from the spec (§4.1): stand-in for the transcendental `log1p`
diminishing-returns transform. The server implementation is absent from the
repository and `log1p` is not rational-valued; it is modelled by a
computable, monotone, nonnegative stand-in. Every claim settled here
depends only on the `min 1.0` cap of `engagement_bonus` and the outer
clamp of the weight formula, never on the transform's shape. -/
def log1pApprox (x : ℚ) : ℚ := max 0 x

/-- Modelled from the spec (§4.1):
`engagement_bonus = min(1.0, log1p(engagement_score) / log1p(ENGAGEMENT_SATURATION))`. -/
def engagement_bonus (r : UserReputation) : ℚ :=
  min 1 (log1pApprox r.engagement_score / log1pApprox ENGAGEMENT_SATURATION)

/-- Modelled from the spec (§4.1):
`accuracy_bonus = min(1.0, max(0.0, accuracy_score - 0.5) * 2.0)`. -/
def accuracy_bonus (r : UserReputation) : ℚ :=
  min 1 (max 0 (r.accuracy_score - 1/2) * 2)

/-- Modelled from the spec (§4.1):
`badge_bonus = min(1.0, badge_score / BADGE_SATURATION)`. -/
def badge_bonus (r : UserReputation) : ℚ :=
  min 1 (r.badge_score / BADGE_SATURATION)

/-- Clamp of `x` into `[lo, hi]`, as used by the weight formula. -/
def clampQ (x lo hi : ℚ) : ℚ := min hi (max lo x)

/-- Modelled from the spec (§4.1):
`vote_weight = clamp(1.0 + engagement_bonus + accuracy_bonus + badge_bonus, 1.0, 5.0)`. -/
def vote_weight (r : UserReputation) : ℚ :=
  clampQ (1 + engagement_bonus r + accuracy_bonus r + badge_bonus r) 1 5

/-- Modelled from the spec (§3): the discrete reputation tiers. -/
inductive ReputationLevel
  | novice
  | active
  | experienced
  | specialist
  | legend
deriving DecidableEq

/-- Modelled from the spec (§4.1): level thresholds on `vote_weight` —
`[1.0,1.5)` novice, `[1.5,2.5)` active, `[2.5,3.5)` experienced,
`[3.5,4.5)` specialist, `[4.5,5.0]` legend. -/
def levelOf (w : ℚ) : ReputationLevel :=
  if w < 3/2 then .novice
  else if w < 5/2 then .active
  else if w < 7/2 then .experienced
  else if w < 9/2 then .specialist
  else .legend

/-- Modelled from the spec (§4.1): `GetWeight(user_id) -> (weight, level)`,
recomputed from the stored accumulators on read. -/
def GetWeight (r : UserReputation) : ℚ × ReputationLevel :=
  (vote_weight r, levelOf (vote_weight r))

/-- One `Apply*` mutation of the ReputationStore (§4.1). -/
inductive RepOp
  | engagementDelta (delta : ℚ)
  | accuracyObservation (voteWasCorrect : Bool)
  | badgeDelta (delta : ℚ)

/-- Modelled from the spec (§4.1): `ApplyEngagementDelta` adds to the
engagement accumulator; `ApplyAccuracyObservation` moves the accuracy score
toward 1 or 0 by an exponentially-weighted moving average;
`ApplyBadgeDelta` adds to the badge accumulator. -/
def applyRepOp (r : UserReputation) : RepOp → UserReputation
  | .engagementDelta d => { r with engagement_score := r.engagement_score + d }
  | .accuracyObservation c =>
    { r with accuracy_score :=
        ACCURACY_EWMA_ALPHA * (if c then 1 else 0)
          + (1 - ACCURACY_EWMA_ALPHA) * r.accuracy_score }
  | .badgeDelta d => { r with badge_score := r.badge_score + d }

/-- Run a sequence of `Apply*` calls from the lazy-creation defaults. -/
def runRepOps (ops : List RepOp) : UserReputation :=
  ops.foldl applyRepOp defaultReputation

/-! ## AntiAbuseGuard (§4.2) composed with the VoteLedger -/

/-- Modelled from the spec (§4.2): rolling-window rate-limit
configuration — `max_actions` per `window` (e.g. 60 per 10 minutes). -/
def RATE_LIMIT_MAX_ACTIONS : Nat := 60

/-- Modelled from the spec (§4.2): the rolling window length in seconds. -/
def RATE_LIMIT_WINDOW : Nat := 600

/-- The voting core behind the guard: the ledger plus the guard's
short-lived per-user log of counted vote actions `(user, time)`. -/
structure GuardedState where
  ledger : Ledger
  vote_actions : List (UserId × Nat)
deriving DecidableEq

/-- The number of counted vote actions of `u` inside the rolling window
ending at `now`. -/
def countRecentActions (acts : List (UserId × Nat)) (u : UserId) (now : Nat) : Nat :=
  (acts.filter (fun a => a.1 == u && now - a.2 < RATE_LIMIT_WINDOW)).length

/-- Modelled from the spec (§4.2, §4.3): a vote request checked by the
AntiAbuseGuard before it mutates the VoteLedger. A vote action repeating the
exact same direction as the current live vote is an idempotent no-op — not
rejected, not counted against the rolling-window limit. Any other action is
rejected with `RateLimited` once the window budget is spent; otherwise it is
counted and handed to `castVote`. -/
def handleVote (s : GuardedState) (voter : UserId) (pid : PostId) (dir : Option Direction)
    (now : Nat) (weight : ℚ) : Except Err (GuardedState × Option Vote) :=
  match lookupPost s.ledger.posts pid with
  | none => .error .NotFound
  | some _ =>
    if (findVote s.ledger voter pid).map Vote.direction = dir then
      .ok (s, findVote s.ledger voter pid)
    else if RATE_LIMIT_MAX_ACTIONS ≤ countRecentActions s.vote_actions voter now then
      .error .RateLimited
    else
      match castVote s.ledger voter pid dir weight with
      | .error e => .error e
      | .ok (l', av) =>
        .ok ({ ledger := l', vote_actions := (voter, now) :: s.vote_actions }, av)

/-! ## BadgeRegistry (§4.4) -/

/-- Modelled from the spec (§3): the fixed 8-type badge enum. -/
inductive BadgeType
  | funny
  | informative
  | controversial
  | helpful
  | creative
  | insightful
  | well_written
  | accurate
deriving DecidableEq

/-- Modelled from the spec (§3): a badge award record, unique per
`(awarder_id, post_id, badge_type)`. -/
structure BadgeAward where
  awarder_id : UserId
  post_id : PostId
  badge_type : BadgeType
deriving DecidableEq

/-- Modelled from the spec (§4.4): the BadgeRegistry state — the known
posts, the unique award records, and the per-post `badge_counts` mapping
stored as `(post, type, count)` entries. The reputation feedback
(`ApplyBadgeDelta` to the post author) is the `RepOp.badgeDelta` operation
of the ReputationStore model. -/
structure BadgeRegistry where
  posts : List PostId
  awards : List BadgeAward
  badge_counts : List (PostId × BadgeType × Nat)
deriving DecidableEq

/-- Read `badge_counts[badge_type]` for a post (0 when absent). -/
def getBadgeCount (reg : BadgeRegistry) (pid : PostId) (t : BadgeType) : Nat :=
  ((reg.badge_counts.find? (fun e => e.1 == pid && e.2.1 == t)).map (fun e => e.2.2)).getD 0

/-- Increment the `(pid, t)` entry of a `badge_counts` table, creating it
at 1 when absent. -/
def bumpCount (counts : List (PostId × BadgeType × Nat)) (pid : PostId) (t : BadgeType) :
    List (PostId × BadgeType × Nat) :=
  match counts with
  | [] => [(pid, t, 1)]
  | e :: rest =>
    if e.1 == pid && e.2.1 == t then (e.1, e.2.1, e.2.2 + 1) :: rest
    else e :: bumpCount rest pid t

/-- Modelled from the spec (§4.4): `AwardBadge(awarder_id, post_id, badge_type)`.
`NotFound` when the post is absent; `Conflict` on a duplicate
`(awarder, post, type)` award; otherwise inserts the unique award record and
increments `badge_counts[badge_type]` on the post. -/
def AwardBadge (reg : BadgeRegistry) (awarder : UserId) (pid : PostId) (t : BadgeType) :
    Except Err BadgeRegistry :=
  if pid ∈ reg.posts then
    if (⟨awarder, pid, t⟩ : BadgeAward) ∈ reg.awards then .error .Conflict
    else
      .ok { posts := reg.posts,
            awards := ⟨awarder, pid, t⟩ :: reg.awards,
            badge_counts := bumpCount reg.badge_counts pid t }
  else .error .NotFound

/-! ## ThreadTree (§4.5): sub-threads -/

/-- Modelled from the spec (§3): a titled discussion branch anchored to a
post, optionally nested under another sub-thread of the same anchor. -/
structure SubThread where
  anchor_post_id : PostId
  parent_thread_id : Option ThreadId
  title : String
  description : String
  created_at : Nat
deriving DecidableEq

/-- The sub-thread store, keyed by thread id. -/
abbrev ThreadStore := List (ThreadId × SubThread)

/-- Look up a sub-thread by id. -/
def lookupThread (store : ThreadStore) (tid : ThreadId) : Option SubThread :=
  (store.find? (fun e => e.1 == tid)).map Prod.snd

/-- Modelled from the spec (§4.5): walk the parent chain of thread `tid`
with an explicit fuel bound (the iterative, bounded traversal the spec
demands) and check that every ancestor is anchored to `anchor`. `false`
when the chain dangles or the fuel runs out. -/
def resolvesToAnchor (store : ThreadStore) : Nat → ThreadId → PostId → Bool
  | 0, _, _ => false
  | fuel + 1, tid, anchor =>
    match lookupThread store tid with
    | none => false
    | some t =>
      t.anchor_post_id == anchor &&
        (match t.parent_thread_id with
         | none => true
         | some p => resolvesToAnchor store fuel p anchor)

/-- Modelled from the spec (§4.5): `CreateSubThread(anchor_post_id, title,
description, parent_thread_id?)`. `NotFound` when the anchor post is
absent; `ValidationError` when the given `parent_thread_id` does not
resolve transitively to the same `anchor_post_id`; otherwise the new
sub-thread is stored under the fresh id `newId`. -/
def createSubThread (posts : List PostId) (store : ThreadStore) (anchor : PostId)
    (title description : String) (parent : Option ThreadId) (newId : ThreadId)
    (now : Nat) : Except Err (ThreadStore × ThreadId) :=
  if anchor ∈ posts then
    match parent with
    | none => .ok ((newId, ⟨anchor, none, title, description, now⟩) :: store, newId)
    | some ptid =>
      if resolvesToAnchor store (store.length + 1) ptid anchor then
        .ok ((newId, ⟨anchor, some ptid, title, description, now⟩) :: store, newId)
      else .error .ValidationError
  else .error .NotFound

/-- The store a caller holds after a `CreateSubThread` call: the new store
on success, the old one untouched on rejection. -/
def applyCreateSubThread (posts : List PostId) (store : ThreadStore) (anchor : PostId)
    (title description : String) (parent : Option ThreadId) (newId : ThreadId)
    (now : Nat) : ThreadStore :=
  match createSubThread posts store anchor title description parent newId now with
  | .ok (store', _) => store'
  | .error _ => store

/-! ## FeedRanker (§4.6) -/

/-- Modelled from the spec (§4.6): the view of a post the FeedRanker sorts. -/
structure FeedPost where
  id : Nat
  net_score : ℚ
  created_at : Nat
deriving DecidableEq

/-- Modelled from the spec (§4.6), `sort_by = weight`: descending
`net_score`, ties broken by descending `created_at`. -/
def weightOrder (a b : FeedPost) : Prop :=
  b.net_score < a.net_score ∨ (a.net_score = b.net_score ∧ b.created_at ≤ a.created_at)

instance : DecidableRel weightOrder := fun a b =>
  decidable_of_iff
    (b.net_score < a.net_score ∨ (a.net_score = b.net_score ∧ b.created_at ≤ a.created_at))
    Iff.rfl

/-- Modelled from the spec (§4.6): the `sort_by=weight` listing order of
`ListFeed` (pagination, which slices this order, is orthogonal to the
ordering claims). -/
def listFeedByWeight (posts : List FeedPost) : List FeedPost :=
  posts.insertionSort weightOrder

/-! ## Client-side vote fallback, embedded from `src/static/js/modules/feed.js` -/

/-- Embedded from `src/static/js/modules/feed.js`, `simulateVote`
(lines 1554–1579): when the vote API is unreachable the client reads the
displayed score (`parseInt(scoreElement.textContent) || 0`, modelled as an
optional parsed integer defaulting to 0) and writes back `score + 1` for an
up vote and `score - 1` for any other vote type, regardless of the voter's
weight or of any existing live vote. -/
def simulateVoteScore (currentScoreText : Option Int) (voteType : String) : Int :=
  let currentScore := currentScoreText.getD 0
  if voteType = "up" then currentScore + 1 else currentScore - 1

/-- Embedded from `src/static/js/modules/feed.js`, `votePost`
(lines 1525–1549): the displayed score after a vote click — the server's
`net_votes` when the request succeeds (`updatePostVotes`), and the locally
simulated score when the request throws (the `catch` branch falls back to
`simulateVote`). -/
def votePostDisplayedScore (serverNetVotes : Option Int) (currentScoreText : Option Int)
    (voteType : String) : Int :=
  match serverNetVotes with
  | some n => n
  | none => simulateVoteScore currentScoreText voteType

/-! ## Helper lemmas -/

theorem net_score_addToBucket (p : Post) (d : Direction) (w : ℚ) :
    (addToBucket p d w).net_score = p.net_score + d.sign * w := by
  cases d <;> simp [addToBucket, Post.net_score, Direction.sign] <;> ring

theorem net_score_subFromBucket (p : Post) (d : Direction) (w : ℚ) :
    (subFromBucket p d w).net_score = p.net_score - d.sign * w := by
  rw [subFromBucket, net_score_addToBucket]; ring

theorem map_fst_updatePost (posts : List (PostId × Post)) (pid : PostId) (f : Post → Post) :
    (updatePost posts pid f).map Prod.fst = posts.map Prod.fst := by
  unfold updatePost
  rw [List.map_map]
  congr 1
  funext pp
  simp only [Function.comp_apply]
  split <;> rfl

theorem updatePost_cons_pos {pp : PostId × Post} {pid : PostId}
    (rest : List (PostId × Post)) (f : Post → Post) (h : (pp.1 == pid) = true) :
    updatePost (pp :: rest) pid f = (pp.1, f pp.2) :: updatePost rest pid f := by
  simp only [updatePost, List.map_cons, h, if_true]

theorem updatePost_cons_neg {pp : PostId × Post} {pid : PostId}
    (rest : List (PostId × Post)) (f : Post → Post) (h : (pp.1 == pid) = false) :
    updatePost (pp :: rest) pid f = pp :: updatePost rest pid f := by
  simp only [updatePost, List.map_cons, h, Bool.false_eq_true, if_false]

theorem lookupPost_updatePost (posts : List (PostId × Post)) (pid : PostId) (f : Post → Post) :
    lookupPost (updatePost posts pid f) pid = (lookupPost posts pid).map f := by
  induction posts with
  | nil => rfl
  | cons pp rest ih =>
    cases h : (pp.1 == pid) with
    | true =>
      rw [updatePost_cons_pos rest f h]
      simp [lookupPost, List.find?, h]
    | false =>
      rw [updatePost_cons_neg rest f h]
      unfold lookupPost
      rw [List.find?_cons_of_neg _ (by simp [h]), List.find?_cons_of_neg _ (by simp [h])]
      exact ih

theorem lookupPost_mem_keys {posts : List (PostId × Post)} {pid : PostId} {p : Post}
    (h : lookupPost posts pid = some p) : pid ∈ posts.map Prod.fst := by
  unfold lookupPost at h
  cases hf : posts.find? (fun pp => pp.1 == pid) with
  | none => rw [hf] at h; cases h
  | some pp =>
    have hpred := List.find?_some hf
    have hmem : pp ∈ posts := List.mem_of_find?_eq_some hf
    have heq : pp.1 = pid := by simpa using hpred
    exact heq ▸ List.mem_map_of_mem Prod.fst hmem

theorem findVote_key {s : Ledger} {voter : UserId} {pid : PostId} {old : Vote}
    (h : findVote s voter pid = some old) :
    old.voter_id = voter ∧ old.target_post_id = pid := by
  have := List.find?_some h
  simpa using this

theorem findVote_mem {s : Ledger} {voter : UserId} {pid : PostId} {old : Vote}
    (h : findVote s voter pid = some old) : old ∈ s.votes :=
  List.mem_of_find?_eq_some h

theorem findVote_none_spec {s : Ledger} {voter : UserId} {pid : PostId}
    (h : findVote s voter pid = none) :
    ∀ v ∈ s.votes, ¬(v.voter_id = voter ∧ v.target_post_id = pid) := by
  intro v hv
  have := List.find?_eq_none.mp h v hv
  simpa using this

theorem mem_removeVote {votes : List Vote} {voter : UserId} {pid : PostId} {v : Vote}
    (h : v ∈ removeVote votes voter pid) :
    v ∈ votes ∧ ¬(v.voter_id = voter ∧ v.target_post_id = pid) := by
  have := List.mem_filter.mp h
  refine ⟨this.1, ?_⟩
  have hb := this.2
  simp only [Bool.not_eq_eq_eq_not, Bool.not_true, Bool.and_eq_false_imp] at hb
  intro ⟨h1, h2⟩
  simp [h1, h2] at hb

theorem tallySum_nil (pid : PostId) : tallySum [] pid = 0 := rfl

theorem tallySum_cons (v : Vote) (votes : List Vote) (pid : PostId) :
    tallySum (v :: votes) pid =
      (if v.target_post_id = pid then signedContribution v else 0) + tallySum votes pid := by
  by_cases h : v.target_post_id = pid
  · simp [tallySum, List.filter_cons, h]
  · have hb : (v.target_post_id == pid) = false := by simpa using h
    simp [tallySum, List.filter_cons, hb, h]

theorem tallySum_eq_zero {votes : List Vote} {pid : PostId}
    (h : ∀ v ∈ votes, v.target_post_id ≠ pid) : tallySum votes pid = 0 := by
  unfold tallySum
  have hnil : votes.filter (fun v => v.target_post_id == pid) = [] := by
    rw [List.filter_eq_nil_iff]
    intro v hv
    simpa using h v hv
  rw [hnil]
  rfl

theorem removeVote_of_not_mem {votes : List Vote} {voter : UserId} {pid : PostId}
    (h : ∀ v ∈ votes, ¬(v.voter_id = voter ∧ v.target_post_id = pid)) :
    removeVote votes voter pid = votes := by
  rw [removeVote, List.filter_eq_self]
  intro v hv
  have := h v hv
  simp only [Bool.not_eq_eq_eq_not, Bool.not_true, Bool.and_eq_false_imp]
  by_cases h1 : v.voter_id = voter
  · by_cases h2 : v.target_post_id = pid
    · exact absurd ⟨h1, h2⟩ this
    · simp [h1, h2]
  · simp [h1]

theorem tallySum_removeVote (votes : List Vote) (voter : UserId) (pid : PostId) (old : Vote)
    (hu : voteKeysUnique votes)
    (hf : votes.find? (fun v => v.voter_id == voter && v.target_post_id == pid) = some old) :
    ∀ q, tallySum (removeVote votes voter pid) q =
      tallySum votes q - (if old.target_post_id = q then signedContribution old else 0) := by
  induction votes with
  | nil => cases hf
  | cons v rest ih =>
    intro q
    rcases List.pairwise_cons.mp hu with ⟨hhead, htail⟩
    by_cases hpred : (v.voter_id == voter && v.target_post_id == pid) = true
    · have hov : old = v := by
        have : List.find? (fun v => v.voter_id == voter && v.target_post_id == pid)
            (v :: rest) = some v := by simp [List.find?, hpred]
        rw [this] at hf
        exact (Option.some.injEq _ _ ▸ hf).symm
      have hkey : v.voter_id = voter ∧ v.target_post_id = pid := by simpa using hpred
      have hrest : ∀ w ∈ rest, ¬(w.voter_id = voter ∧ w.target_post_id = pid) := by
        intro w hw hcontra
        exact hhead w hw ⟨hkey.1.trans hcontra.1.symm, hkey.2.trans hcontra.2.symm⟩
      have h1 : removeVote (v :: rest) voter pid = rest := by
        have hstep : removeVote (v :: rest) voter pid = removeVote rest voter pid := by
          rw [removeVote, removeVote, List.filter_cons]
          simp only [hpred, Bool.not_true, Bool.false_eq_true, if_false]
        rw [hstep]
        exact removeVote_of_not_mem hrest
      rw [h1, hov, tallySum_cons]
      ring
    · have hb : (v.voter_id == voter && v.target_post_id == pid) = false := by
        simpa using hpred
      have hf' : rest.find? (fun v => v.voter_id == voter && v.target_post_id == pid)
          = some old := by
        rw [List.find?] at hf
        simpa [hb] using hf
      have h1 : removeVote (v :: rest) voter pid = v :: removeVote rest voter pid := by
        rw [removeVote, removeVote, List.filter_cons]
        simp only [hb, Bool.not_false, if_true]
      rw [h1, tallySum_cons, tallySum_cons, ih htail hf']
      ring

theorem voteKeysUnique_cons_of_fresh {votes : List Vote} {newv : Vote}
    (hu : voteKeysUnique votes)
    (hfresh : ∀ v ∈ votes, ¬(v.voter_id = newv.voter_id ∧ v.target_post_id = newv.target_post_id)) :
    voteKeysUnique (newv :: votes) := by
  refine List.pairwise_cons.mpr ⟨?_, hu⟩
  intro v hv hcontra
  exact hfresh v hv ⟨hcontra.1.symm, hcontra.2.symm⟩

theorem voteKeysUnique_removeVote {votes : List Vote} (voter : UserId) (pid : PostId)
    (hu : voteKeysUnique votes) : voteKeysUnique (removeVote votes voter pid) :=
  List.Pairwise.sublist (List.filter_sublist votes) hu

theorem castVote_preserves_ledgerInv (s : Ledger) (voter : UserId) (pid : PostId)
    (dir : Option Direction) (w : ℚ) (s' : Ledger) (av : Option Vote)
    (hinv : ledgerInv s) (h : castVote s voter pid dir w = .ok (s', av)) :
    ledgerInv s' := by
  obtain ⟨hnodup, huniq, htargets, hsum⟩ := hinv
  cases hl : lookupPost s.posts pid with
  | none =>
    simp only [castVote, hl] at h
    cases h
  | some p =>
    have hpidmem : pid ∈ s.posts.map Prod.fst := lookupPost_mem_keys hl
    cases hf : findVote s voter pid with
    | none =>
      have hfresh := findVote_none_spec hf
      cases dir with
      | none =>
        simp only [castVote, hl, hf, Except.ok.injEq, Prod.mk.injEq] at h
        obtain ⟨rfl, -⟩ := h
        exact ⟨hnodup, huniq, htargets, hsum⟩
      | some d =>
        simp only [castVote, hl, hf, Except.ok.injEq, Prod.mk.injEq] at h
        obtain ⟨rfl, -⟩ := h
        refine ⟨?_, ?_, ?_, ?_⟩
        · rw [map_fst_updatePost]; exact hnodup
        · exact voteKeysUnique_cons_of_fresh huniq (by simpa using hfresh)
        · intro v hv
          rw [map_fst_updatePost]
          rcases List.mem_cons.mp hv with rfl | hv'
          · exact hpidmem
          · exact htargets v hv'
        · intro pp hpp
          rcases List.mem_map.mp hpp with ⟨qq, hqq, hg⟩
          by_cases hq : qq.1 = pid
          · have hb : (qq.1 == pid) = true := by simpa using hq
            rw [if_pos hb] at hg
            subst hg
            simp only
            rw [tallySum_cons, net_score_addToBucket, hsum qq hqq, hq]
            simp [signedContribution]
            ring
          · have hb : (qq.1 == pid) = false := by simpa using hq
            rw [if_neg (by simp [hb])] at hg
            subst hg
            simp only
            rw [tallySum_cons]
            have hne : (⟨voter, pid, d, w⟩ : Vote).target_post_id ≠ qq.1 := fun hc =>
              hq (by simpa using hc.symm)
            rw [if_neg hne, hsum qq hqq]
            ring
    | some old =>
      obtain ⟨hov, hot⟩ := findVote_key hf
      have hfl : s.votes.find? (fun v => v.voter_id == voter && v.target_post_id == pid)
          = some old := hf
      cases dir with
      | none =>
        simp only [castVote, hl, hf, Except.ok.injEq, Prod.mk.injEq] at h
        obtain ⟨rfl, -⟩ := h
        have hrem := tallySum_removeVote s.votes voter pid old huniq hfl
        refine ⟨?_, ?_, ?_, ?_⟩
        · rw [map_fst_updatePost]; exact hnodup
        · exact voteKeysUnique_removeVote voter pid huniq
        · intro v hv
          rw [map_fst_updatePost]
          exact htargets v (mem_removeVote hv).1
        · intro pp hpp
          rcases List.mem_map.mp hpp with ⟨qq, hqq, hg⟩
          by_cases hq : qq.1 = pid
          · have hb : (qq.1 == pid) = true := by simpa using hq
            rw [if_pos hb] at hg
            subst hg
            simp only
            rw [hrem qq.1, net_score_subFromBucket, hsum qq hqq, if_pos (hot.trans hq.symm)]
            simp [signedContribution]
          · have hb : (qq.1 == pid) = false := by simpa using hq
            rw [if_neg (by simp [hb])] at hg
            subst hg
            simp only
            rw [hrem qq.1, if_neg (fun hc => hq ((hot.symm.trans hc).symm)), hsum qq hqq]
            ring
      | some d =>
        by_cases hd : old.direction = d
        · simp only [castVote, hl, hf, if_pos hd, Except.ok.injEq, Prod.mk.injEq] at h
          obtain ⟨rfl, -⟩ := h
          exact ⟨hnodup, huniq, htargets, hsum⟩
        · simp only [castVote, hl, hf, if_neg hd, Except.ok.injEq, Prod.mk.injEq] at h
          obtain ⟨rfl, -⟩ := h
          have hrem := tallySum_removeVote s.votes voter pid old huniq hfl
          refine ⟨?_, ?_, ?_, ?_⟩
          · rw [map_fst_updatePost]; exact hnodup
          · refine voteKeysUnique_cons_of_fresh (voteKeysUnique_removeVote voter pid huniq) ?_
            intro v hv hcontra
            exact (mem_removeVote hv).2 ⟨hcontra.1, hcontra.2⟩
          · intro v hv
            rw [map_fst_updatePost]
            rcases List.mem_cons.mp hv with rfl | hv'
            · exact hpidmem
            · exact htargets v (mem_removeVote hv').1
          · intro pp hpp
            rcases List.mem_map.mp hpp with ⟨qq, hqq, hg⟩
            by_cases hq : qq.1 = pid
            · have hb : (qq.1 == pid) = true := by simpa using hq
              rw [if_pos hb] at hg
              subst hg
              simp only
              rw [tallySum_cons, hrem qq.1, net_score_addToBucket, net_score_subFromBucket,
                hsum qq hqq, if_pos (hot.trans hq.symm), if_pos hq.symm]
              simp only [signedContribution]
              ring
            · have hb : (qq.1 == pid) = false := by simpa using hq
              rw [if_neg (by simp [hb])] at hg
              subst hg
              simp only
              have hne1 : (⟨voter, pid, d, w⟩ : Vote).target_post_id ≠ qq.1 := fun hc =>
                hq (by simpa using hc.symm)
              rw [tallySum_cons, hrem qq.1, if_neg hne1,
                if_neg (fun hc => hq ((hot.symm.trans hc).symm)), hsum qq hqq]
              ring

theorem createPost_preserves_ledgerInv (s : Ledger) (pid : PostId)
    (hinv : ledgerInv s) : ledgerInv (createPost s pid) := by
  obtain ⟨hnodup, huniq, htargets, hsum⟩ := hinv
  unfold createPost
  by_cases hmem : pid ∈ s.posts.map Prod.fst
  · rw [if_pos hmem]; exact ⟨hnodup, huniq, htargets, hsum⟩
  · rw [if_neg hmem]
    refine ⟨?_, huniq, ?_, ?_⟩
    · rw [List.map_cons]
      exact List.nodup_cons.mpr ⟨hmem, hnodup⟩
    · intro v hv
      simp only [List.map_cons, List.mem_cons]
      exact Or.inr (htargets v hv)
    · intro pp hpp
      rcases List.mem_cons.mp hpp with rfl | hpp'
      · have hz : tallySum s.votes pid = 0 := by
          refine tallySum_eq_zero ?_
          intro v hv hc
          exact hmem (hc ▸ htargets v hv)
        simp only [hz]
        simp [Post.net_score]
      · exact hsum pp hpp'

theorem emptyLedger_ledgerInv : ledgerInv emptyLedger := by
  refine ⟨List.nodup_nil, List.Pairwise.nil, ?_, ?_⟩ <;> intro v hv <;> cases hv

theorem applyOp_preserves_ledgerInv (s : Ledger) (op : FeedOp)
    (hinv : ledgerInv s) : ledgerInv (applyOp s op) := by
  cases op with
  | newPost pid => exact createPost_preserves_ledgerInv s pid hinv
  | vote voter pid dir w =>
    have happ : applyOp s (.vote voter pid dir w) =
        match castVote s voter pid dir w with
        | .ok (s', _) => s'
        | .error _ => s := rfl
    rw [happ]
    cases hc : castVote s voter pid dir w with
    | ok r =>
      obtain ⟨s1, av⟩ := r
      exact castVote_preserves_ledgerInv s voter pid dir w s1 av hinv hc
    | error e =>
      exact hinv

theorem foldl_applyOp_preserves_ledgerInv (ops : List FeedOp) :
    ∀ s : Ledger, ledgerInv s → ledgerInv (ops.foldl applyOp s) := by
  induction ops with
  | nil => intro s hs; exact hs
  | cons op rest ih =>
    intro s hs
    exact ih (applyOp s op) (applyOp_preserves_ledgerInv s op hs)

/-- C1: in every reachable state of the VoteLedger, every post's `net_score`
equals the sum over the live Vote rows targeting it of `weight_snapshot`
signed by direction, each live row (at most one per voter and target)
contributing exactly once; and every successful `CastVote` transition
preserves this invariant from any state satisfying it. -/
theorem C1_net_score_invariant :
    (∀ ops : List FeedOp, ledgerInv (runOps ops)) ∧
    (∀ (s : Ledger) (voter : UserId) (pid : PostId) (dir : Option Direction) (w : ℚ)
        (s' : Ledger) (av : Option Vote), ledgerInv s →
      castVote s voter pid dir w = .ok (s', av) → ledgerInv s') := by
  constructor
  · intro ops
    exact foldl_applyOp_preserves_ledgerInv ops emptyLedger emptyLedger_ledgerInv
  · intro s voter pid dir w s' av hinv h
    exact castVote_preserves_ledgerInv s voter pid dir w s' av hinv h

/-- Witness for C1: the preservation half applied to a concrete first
upvote of weight 1 on an empty one-post ledger. -/
theorem C1_net_score_invariant_witness :
    ledgerInv ⟨[(1, ⟨1, 0⟩)], [⟨2, 1, Direction.up, 1⟩]⟩ :=
  C1_net_score_invariant.2 ⟨[(1, ⟨0, 0⟩)], []⟩ 2 1 (some Direction.up) 1
    ⟨[(1, ⟨1, 0⟩)], [⟨2, 1, Direction.up, 1⟩]⟩ (some ⟨2, 1, Direction.up, 1⟩)
    (by
      refine ⟨by simp, List.Pairwise.nil, ?_, ?_⟩
      · intro v hv; cases hv
      · intro pp hpp
        rcases List.mem_cons.mp hpp with rfl | hpp'
        · simp [Post.net_score, tallySum]
        · cases hpp')
    (by simp [castVote, lookupPost, findVote, updatePost, addToBucket, List.find?])

/-- C2: after any finite sequence of `ApplyEngagementDelta`,
`ApplyAccuracyObservation` and `ApplyBadgeDelta` calls starting from the
lazy-creation defaults, the derived `vote_weight` returned by `GetWeight`
lies in `[1.0, 5.0]`, by the clamp in the weight formula. -/
theorem C2_vote_weight_bounds (ops : List RepOp) :
    1 ≤ (GetWeight (runRepOps ops)).1 ∧ (GetWeight (runRepOps ops)).1 ≤ 5 := by
  unfold GetWeight vote_weight clampQ
  constructor
  · exact le_min (by norm_num) (le_max_left 1 _)
  · exact min_le_left 5 _

/-- C9: the reputation level returned by `GetWeight` is derived from
`vote_weight` by the threshold intervals `[1.0,1.5)` novice, `[1.5,2.5)`
active, `[2.5,3.5)` experienced, `[3.5,4.5)` specialist and `[4.5,5.0]`
legend, for every weight in `[1.0, 5.0]`. -/
theorem C9_level_thresholds :
    (∀ r : UserReputation, (GetWeight r).2 = levelOf (GetWeight r).1) ∧
    (∀ w : ℚ, 1 ≤ w → w ≤ 5 →
      ((levelOf w = .novice ↔ w < 3/2) ∧
       (levelOf w = .active ↔ 3/2 ≤ w ∧ w < 5/2) ∧
       (levelOf w = .experienced ↔ 5/2 ≤ w ∧ w < 7/2) ∧
       (levelOf w = .specialist ↔ 7/2 ≤ w ∧ w < 9/2) ∧
       (levelOf w = .legend ↔ 9/2 ≤ w))) := by
  refine ⟨fun r => rfl, fun w h1 h5 => ?_⟩
  unfold levelOf
  split_ifs with ha hb hc hd <;>
    refine ⟨?_, ?_, ?_, ?_, ?_⟩ <;> simp_all <;> intros <;> linarith

/-- Witness for C9: a weight of 2 is classified `active`. -/
theorem C9_level_thresholds_witness : levelOf 2 = ReputationLevel.active :=
  ((C9_level_thresholds.2 2 (by norm_num) (by norm_num)).2.1).mpr
    ⟨by norm_num, by norm_num⟩

/-- C10: when the vote HTTP request throws, the client feed module falls
back to `simulateVote`, which changes the displayed score by exactly `+1`
for an up vote and `-1` for a down vote, ignoring the voter's weight and any
existing live vote — so the locally simulated score can diverge from the
server's weighted `net_score`: a first upvote by a weight-3 voter yields a
server `net_score` of 3 while the client simulation yields 1. -/
theorem C10_simulate_vote_fallback :
    (∀ t : Option Int,
      votePostDisplayedScore none t "up" = t.getD 0 + 1 ∧
      votePostDisplayedScore none t "down" = t.getD 0 - 1) ∧
    ((lookupPost (applyOp (runOps [.newPost 1]) (.vote 7 1 (some Direction.up) 3)).posts 1).map
        Post.net_score = some 3) ∧
    ((simulateVoteScore (some 0) "up" : ℚ) ≠ 3) := by
  refine ⟨fun t => ⟨rfl, rfl⟩, ?_, ?_⟩
  · simp [runOps, applyOp, createPost, castVote, lookupPost, findVote, updatePost,
      addToBucket, emptyLedger, List.find?, Post.net_score]
  · simp [simulateVoteScore]

instance : IsTotal FeedPost weightOrder := ⟨by
  intro a b
  unfold weightOrder
  rcases lt_trichotomy a.net_score b.net_score with h | h | h
  · exact Or.inr (Or.inl h)
  · rcases Nat.le_total b.created_at a.created_at with hc | hc
    · exact Or.inl (Or.inr ⟨h, hc⟩)
    · exact Or.inr (Or.inr ⟨h.symm, hc⟩)
  · exact Or.inl (Or.inl h)⟩

instance : IsTrans FeedPost weightOrder := ⟨by
  intro a b c hab hbc
  unfold weightOrder at *
  rcases hab with h | ⟨he, hc⟩
  · rcases hbc with h2 | ⟨he2, -⟩
    · exact Or.inl (h2.trans h)
    · exact Or.inl (he2 ▸ h)
  · rcases hbc with h2 | ⟨he2, hc2⟩
    · exact Or.inl (he ▸ h2)
    · exact Or.inr ⟨he.trans he2, hc2.trans hc⟩⟩

/-- C8: `ListFeed(sort_by=weight)` orders posts by descending `net_score`
with ties broken by descending `created_at`: the output is sorted under
that order and is a permutation of the input, and on three posts with net
scores `[5, 5, 3]` created at times `1 < 2 < 3` the returned order is the
post created at 2, then the one created at 1, then the one created at 3. -/
theorem C8_weight_sort_order :
    (∀ posts : List FeedPost, List.Sorted weightOrder (listFeedByWeight posts) ∧
      (listFeedByWeight posts).Perm posts) ∧
    listFeedByWeight [⟨1, 5, 1⟩, ⟨2, 5, 2⟩, ⟨3, 3, 3⟩] =
      [⟨2, 5, 2⟩, ⟨1, 5, 1⟩, ⟨3, 3, 3⟩] := by
  refine ⟨fun posts => ⟨List.sorted_insertionSort weightOrder posts,
    List.perm_insertionSort weightOrder posts⟩, ?_⟩
  simp [listFeedByWeight, List.insertionSort, List.orderedInsert, weightOrder]
  norm_num

/-- C4: when a voter holds a live vote on a post, repeating the exact same
direction is an accepted no-op: the request is not rejected, the ledger
(post tallies, vote rows) is returned unchanged, and the action is not
recorded against the voter's rolling-window rate limit. -/
theorem C4_same_direction_revote_noop (s : GuardedState) (voter : UserId) (pid : PostId)
    (p : Post) (v : Vote) (now : Nat) (w : ℚ)
    (hp : lookupPost s.ledger.posts pid = some p)
    (hv : findVote s.ledger voter pid = some v) :
    handleVote s voter pid (some v.direction) now w = .ok (s, some v) := by
  simp [handleVote, hp, hv]

/-- Witness for C4: a concrete repeat-up vote on a one-post ledger leaves
the whole guarded state, including the rate-limit window, untouched. -/
theorem C4_same_direction_revote_noop_witness :
    handleVote ⟨⟨[(1, ⟨1, 0⟩)], [⟨2, 1, Direction.up, 1⟩]⟩, []⟩ 2 1 (some Direction.up) 5 1 =
      .ok (⟨⟨[(1, ⟨1, 0⟩)], [⟨2, 1, Direction.up, 1⟩]⟩, []⟩, some ⟨2, 1, Direction.up, 1⟩) :=
  C4_same_direction_revote_noop ⟨⟨[(1, ⟨1, 0⟩)], [⟨2, 1, Direction.up, 1⟩]⟩, []⟩ 2 1
    ⟨1, 0⟩ ⟨2, 1, Direction.up, 1⟩ 5 1 rfl rfl

/-- C3: a voter holding a live up vote with snapshot `w` on a post who casts
a down vote while their current weight is still `w` moves the post's
`net_score` down by exactly `2 × w` in the single `CastVote` transition
(the old up contribution is removed and the new down contribution added
atomically). -/
theorem C3_up_then_down_drops_twice_weight (s : Ledger) (voter : UserId) (pid : PostId)
    (p : Post) (old : Vote) (w : ℚ)
    (hp : lookupPost s.posts pid = some p)
    (hv : findVote s voter pid = some old)
    (hdir : old.direction = Direction.up)
    (hw : old.weight_snapshot = w) :
    ∃ (s' : Ledger) (av : Option Vote) (p' : Post),
      castVote s voter pid (some Direction.down) w = .ok (s', av) ∧
      lookupPost s'.posts pid = some p' ∧
      p'.net_score = p.net_score - 2 * w := by
  have hne : ¬old.direction = Direction.down := by rw [hdir]; intro hc; cases hc
  refine ⟨{ posts := updatePost s.posts pid
              (fun q => addToBucket (subFromBucket q old.direction old.weight_snapshot)
                Direction.down w),
            votes := ⟨voter, pid, Direction.down, w⟩ :: removeVote s.votes voter pid },
          some ⟨voter, pid, Direction.down, w⟩,
          addToBucket (subFromBucket p old.direction old.weight_snapshot) Direction.down w,
          ?_, ?_, ?_⟩
  · simp only [castVote, hp, hv, if_neg hne]
  · simp only
    rw [lookupPost_updatePost, hp]
    rfl
  · rw [net_score_addToBucket, net_score_subFromBucket, hdir, hw]
    simp [Direction.sign]
    ring

/-- Witness for C3: voter 2 holds a live weight-1 up vote on post 1 whose
score is 1; switching to down with current weight 1 lands the score at -1,
a drop of exactly 2. -/
theorem C3_up_then_down_drops_twice_weight_witness :
    ∃ (s' : Ledger) (av : Option Vote) (p' : Post),
      castVote ⟨[(1, ⟨1, 0⟩)], [⟨2, 1, Direction.up, 1⟩]⟩ 2 1 (some Direction.down) 1 =
        .ok (s', av) ∧
      lookupPost s'.posts 1 = some p' ∧
      p'.net_score = (Post.mk 1 0).net_score - 2 * 1 :=
  C3_up_then_down_drops_twice_weight ⟨[(1, ⟨1, 0⟩)], [⟨2, 1, Direction.up, 1⟩]⟩ 2 1
    ⟨1, 0⟩ ⟨2, 1, Direction.up, 1⟩ 1 rfl rfl rfl rfl

/-- Counterexample to C5 as stated: when the voter already holds a live
vote, casting a new vote overwrites it, and the later retraction removes
the row entirely, so the `net_score` does not return to its pre-cast value.
Concretely: post 1 has score 1 from voter 2's live up vote; voter 2 casts
down (score −1) and then retracts (score 0 ≠ 1). -/
theorem C5_counterexample :
    (lookupPost (applyOp (applyOp ⟨[(1, ⟨1, 0⟩)], [⟨2, 1, Direction.up, 1⟩]⟩
          (.vote 2 1 (some Direction.down) 1)) (.vote 2 1 none 1)).posts 1).map
        Post.net_score ≠
      (lookupPost (Ledger.mk [(1, ⟨1, 0⟩)] [⟨2, 1, Direction.up, 1⟩]).posts 1).map
        Post.net_score := by
  simp [applyOp, castVote, lookupPost, findVote, updatePost, addToBucket, subFromBucket,
    removeVote, Post.net_score, List.find?, List.filter]

/-- C5 (amended): for a voter with no live vote on the post, casting a vote
and then retracting it (direction = none) is a round trip — the retraction
subtracts the stored `weight_snapshot` from its bucket and removes the Vote
row, returning the post's `net_score` exactly to its pre-cast value. -/
theorem C5_cast_retract_round_trip (s : Ledger) (voter : UserId) (pid : PostId)
    (d : Direction) (w : ℚ) (p : Post)
    (hp : lookupPost s.posts pid = some p)
    (hv : findVote s voter pid = none) :
    ∃ (s1 : Ledger) (av : Option Vote) (s2 : Ledger),
      castVote s voter pid (some d) w = .ok (s1, av) ∧
      castVote s1 voter pid none w = .ok (s2, none) ∧
      (lookupPost s2.posts pid).map Post.net_score =
        (lookupPost s.posts pid).map Post.net_score := by
  have hlook1 : lookupPost (updatePost s.posts pid (fun q => addToBucket q d w)) pid
      = some (addToBucket p d w) := by
    rw [lookupPost_updatePost, hp]
    rfl
  have hfind1 : findVote ⟨updatePost s.posts pid (fun q => addToBucket q d w),
      (⟨voter, pid, d, w⟩ : Vote) :: s.votes⟩ voter pid = some ⟨voter, pid, d, w⟩ := by
    simp [findVote, List.find?]
  refine ⟨⟨updatePost s.posts pid (fun q => addToBucket q d w),
            (⟨voter, pid, d, w⟩ : Vote) :: s.votes⟩,
          some ⟨voter, pid, d, w⟩,
          ⟨updatePost (updatePost s.posts pid (fun q => addToBucket q d w)) pid
              (fun q => subFromBucket q d w),
            removeVote ((⟨voter, pid, d, w⟩ : Vote) :: s.votes) voter pid⟩,
          ?_, ?_, ?_⟩
  · simp only [castVote, hp, hv]
  · simp only [castVote, hlook1, hfind1]
  · simp only
    rw [lookupPost_updatePost, hlook1, hp]
    simp only [Option.map_some']
    congr 1
    rw [net_score_subFromBucket, net_score_addToBucket]
    ring

/-- Witness for C5 (amended): a fresh up vote of weight 1 on an empty post
and its retraction land the score back at its original value 0. -/
theorem C5_cast_retract_round_trip_witness :
    ∃ (s1 : Ledger) (av : Option Vote) (s2 : Ledger),
      castVote ⟨[(1, ⟨0, 0⟩)], []⟩ 2 1 (some Direction.up) 1 = .ok (s1, av) ∧
      castVote s1 2 1 none 1 = .ok (s2, none) ∧
      (lookupPost s2.posts 1).map Post.net_score =
        (lookupPost (Ledger.mk [(1, ⟨0, 0⟩)] []).posts 1).map Post.net_score :=
  C5_cast_retract_round_trip ⟨[(1, ⟨0, 0⟩)], []⟩ 2 1 Direction.up 1 ⟨0, 0⟩ rfl rfl

theorem find?_bumpCount (counts : List (PostId × BadgeType × Nat)) (pid : PostId)
    (t : BadgeType) :
    ((bumpCount counts pid t).find? (fun e => e.1 == pid && e.2.1 == t)).map
        (fun e => e.2.2) =
      some ((((counts.find? (fun e => e.1 == pid && e.2.1 == t)).map
        (fun e => e.2.2)).getD 0) + 1) := by
  induction counts with
  | nil => simp [bumpCount, List.find?]
  | cons e rest ih =>
    by_cases h : (e.1 == pid && e.2.1 == t) = true
    · have hkey : e.1 = pid ∧ e.2.1 = t := by simpa using h
      simp [bumpCount, h, List.find?, hkey.1, hkey.2]
    · have hb : (e.1 == pid && e.2.1 == t) = false := by simpa using h
      simp only [bumpCount, hb, Bool.false_eq_true, if_false]
      rw [List.find?_cons_of_neg _ (by simp [hb]), List.find?_cons_of_neg _ (by simp [hb])]
      exact ih

/-- C6: awarding the same `(awarder, post, badge_type)` twice returns
`Conflict` on the second call (surfaced as HTTP 409) rather than silently
succeeding, and `badge_counts[badge_type]` on the post increments exactly
once across the two calls. -/
theorem C6_duplicate_badge_conflict (reg : BadgeRegistry) (awarder : UserId)
    (pid : PostId) (t : BadgeType)
    (hpost : pid ∈ reg.posts)
    (hfresh : (⟨awarder, pid, t⟩ : BadgeAward) ∉ reg.awards) :
    ∃ reg' : BadgeRegistry,
      AwardBadge reg awarder pid t = .ok reg' ∧
      AwardBadge reg' awarder pid t = .error .Conflict ∧
      getBadgeCount reg' pid t = getBadgeCount reg pid t + 1 := by
  refine ⟨⟨reg.posts, ⟨awarder, pid, t⟩ :: reg.awards, bumpCount reg.badge_counts pid t⟩,
    ?_, ?_, ?_⟩
  · rw [AwardBadge, if_pos hpost, if_neg hfresh]
  · rw [AwardBadge]
    simp only
    rw [if_pos hpost, if_pos (List.mem_cons_self _ _)]
  · unfold getBadgeCount
    simp only
    rw [find?_bumpCount]
    rfl

/-- Witness for C6: a first `funny` badge from user 3 on post 1 succeeds and
bumps the count from 0 to 1; the identical second award returns `Conflict`. -/
theorem C6_duplicate_badge_conflict_witness :
    ∃ reg' : BadgeRegistry,
      AwardBadge ⟨[1], [], []⟩ 3 1 BadgeType.funny = .ok reg' ∧
      AwardBadge reg' 3 1 BadgeType.funny = .error .Conflict ∧
      getBadgeCount reg' 1 BadgeType.funny = getBadgeCount ⟨[1], [], []⟩ 1 BadgeType.funny + 1 :=
  C6_duplicate_badge_conflict ⟨[1], [], []⟩ 3 1 BadgeType.funny (by decide) (by decide)

/-- C7: a `CreateSubThread` call whose `parent_thread_id` does not resolve
transitively to the same `anchor_post_id` as the new sub-thread is rejected
with `ValidationError`, and the thread store is left unchanged — no
sub-thread is created and no existing thread is reparented. -/
theorem C7_foreign_parent_thread_rejected (posts : List PostId) (store : ThreadStore)
    (anchor : PostId) (title description : String) (ptid : ThreadId) (newId : ThreadId)
    (now : Nat)
    (hanchor : anchor ∈ posts)
    (hbad : resolvesToAnchor store (store.length + 1) ptid anchor = false) :
    createSubThread posts store anchor title description (some ptid) newId now =
        .error .ValidationError ∧
      applyCreateSubThread posts store anchor title description (some ptid) newId now
        = store := by
  have hmain : createSubThread posts store anchor title description (some ptid) newId now =
      .error .ValidationError := by
    rw [createSubThread, if_pos hanchor]
    simp only [hbad, Bool.false_eq_true, if_false]
  refine ⟨hmain, ?_⟩
  rw [applyCreateSubThread, hmain]

/-- Witness for C7: thread 10 is anchored to post 2, so creating a
sub-thread of post 1 under parent 10 is rejected and the store survives. -/
theorem C7_foreign_parent_thread_rejected_witness :
    createSubThread [1, 2] [(10, ⟨2, none, "t", "", 0⟩)] 1 "s" "" (some 10) 11 5 =
        .error .ValidationError ∧
      applyCreateSubThread [1, 2] [(10, ⟨2, none, "t", "", 0⟩)] 1 "s" "" (some 10) 11 5
        = [(10, ⟨2, none, "t", "", 0⟩)] :=
  C7_foreign_parent_thread_rejected [1, 2] [(10, ⟨2, none, "t", "", 0⟩)] 1 "s" "" 10 11 5
    (by decide) (by decide)

end Decterum
